import Mathlib

/-!
Shallow embedding of trafaret/extras.py: the KeysSubset cross-field
validation combinator and the trafaret_parse schema walker, together with
theorems checking the natural-language specification of the module against
this code.  Python dicts are modelled as insertion-ordered association
lists with update-or-append assignment; a Python exception escaping a
function is modelled by an Option-valued result being none.
-/

mutual
/-- Validation failure value (an external collaborator of extras.py,
modelled from the spec: a failure carries either a plain message or a
mapping from field name to a nested failure). -/
inductive DataError where
  | strE (msg : String)
  | dictE (m : List (String × EItem))

/-- Entry of a structured failure mapping.  Modelled from the spec: the
mapping values produced by an inner validator may be failure objects or
plain messages not yet wrapped in the failure type; KeysSubset normalizes
the latter. -/
inductive EItem where
  | plainE (s : String)
  | derrE (e : DataError)
end

/-- A value held in an input or output record.  The success mapping of an
inner validator may also contain failure values (see the cmp_pwds doctest
of KeysSubset), hence the verr constructor. -/
inductive Val where
  | vstr (s : String)
  | vint (n : Int)
  | verr (e : DataError)

/-- A Python dict from field name to value, as an insertion-ordered
association list. -/
abbrev Rec := List (String × Val)

/-- Result of running a validator through catch_error: either the returned
mapping or the caught DataError. -/
inductive Res where
  | ok (r : Rec)
  | err (e : DataError)

/-- Python dict lookup data.get(k) / data[k]. -/
def rget : Rec → String → Option Val
  | [], _ => none
  | (k', v) :: rest, k => if k' = k then some v else rget rest k

/-- Python dict assignment d[k] = v: update the existing entry in place,
else append a new entry at the end. -/
def pyInsert : Rec → String → Val → Rec
  | [], k, v => [(k, v)]
  | (k', v') :: rest, k, v =>
    if k' = k then (k, v) :: rest else (k', v') :: pyInsert rest k v

mutual
/-- The validator composition tree of extras.py, one constructor per
isinstance branch of trafaret_parse: Dict (Record), String, Int, Float,
Bool, Tuple, List, Any, Or, Enum, Null, Mapping, and the textual fallback
for any other validator.  Constraint attributes are carried in their
rendered string form, with none for Python None.  The runtime check of a
Record or of an opaque validator is an external collaborator and is
carried as an opaque function. -/
inductive Traf where
  | anyT
  | stringT (allow_blank regex min_length max_length : Option String)
  | intT (gt gte lt lte : Option String)
  | floatT (gt gte lt lte : Option String)
  | boolT
  | tupleT (trafarets : List Traf) (length : Nat)
  | listT (traf : Traf) (min_length max_length : Option String)
  | orT (trafarets : List Traf)
  | enumT (variants : List String)
  | nullT
  | mappingT (keyTr valueTr : Traf)
  | dictT (keys : List TKey) (check : Rec → Res)
  | otherT (text : String) (check : Rec → Res)

/-- An entry of a Record validator: either a plain field descriptor
(name, default, optionality flag, free-text description, inner validator)
or a KeysSubset rule (declared source field names and the inner validator
assigned to it by the enclosing Record). -/
inductive TKey where
  | field (name : String) (default : PyDefault) (optional : Bool)
      (description : String) (traf : Traf)
  | subset (skeys : List String) (traf : Traf)

/-- Default value of a field descriptor: the distinguished unset sentinel
(trafaret._empty) or an explicit value, modelled in its rendered string
form. -/
inductive PyDefault where
  | empty
  | strD (s : String)
end

mutual
/-- Modelled from the spec: Dict.keys_names of the main trafaret package
(not part of extras.py) yields, for each entry of the Record in declaration
order, the names that entry is responsible for, consulting the keys_names
of each entry recursively. -/
def dictKeysNames : List TKey → List String
  | [] => []
  | k :: ks => tkeyKeysNames k ++ dictKeysNames ks

/-- Modelled from the spec: the names one Record entry is responsible for.
A plain field descriptor yields its own name; a KeysSubset rule yields its
keys_names (lines 44 to 49 of extras.py). -/
def tkeyKeysNames : TKey → List String
  | .field n _ _ _ _ => [n]
  | .subset sk t => keysSubsetKeysNames sk t

/-- KeysSubset.keys_names (extras.py lines 44 to 49): when the assigned
inner validator is a Dict, first yield each of its keys_names, then yield
the declared source field names of the rule. -/
def keysSubsetKeysNames (sk : List String) : Traf → List String
  | .dictT keys _ => dictKeysNames keys ++ sk
  | _ => sk
end

/-- Modelled from the spec: the runtime check behavior of validators is an
external collaborator of extras.py.  Any accepts anything and returns the
value unchanged (the default inner validator of KeysSubset); a Record and
an opaque validator carry their check function explicitly.  The runtime
behavior of the remaining leaf validators is outside the scope of the spec
and is not consulted by any claim; they are modelled as accept-anything. -/
def Traf.check : Traf → Rec → Res
  | .anyT, r => .ok r
  | .dictT _ chk, r => chk r
  | .otherT _ chk, r => chk r
  | _, r => .ok r

/-- Line 39 of extras.py: e if isinstance(e, DataError) else DataError(e).
A mapping value that is already a failure object passes through unchanged;
a plain message is wrapped into the failure type. -/
def normErr : EItem → DataError
  | .derrE e => e
  | .plainE s => .strE s

/-- One step of the subdict comprehension of line 34: for a name k of
keys_names, add (k, data.get(k)) when k is in data. -/
def subStep (data : Rec) (acc : Rec) (k : String) : Rec :=
  match rget data k with
  | some v => pyInsert acc k v
  | none => acc

/-- Line 34 of extras.py: dict((k, data.get(k)) for k in self.keys_names()
if k in data). -/
def mkSubdict (kn : List String) (data : Rec) : Rec :=
  kn.foldl (subStep data) []

/-- A result triple yielded by KeysSubset.__call__: output field name,
either a normalized failure or a success value, and the list of consumed
field names. -/
abbrev CallOut := List (String × (Sum DataError Val) × List String)

/-- KeysSubset.__call__ (extras.py lines 33 to 42).  Build the sub-record
from the keys_names of the rule restricted to the input, run the inner
validator through catch_error, and dispatch: a structured failure yields
one normalized triple per mapping entry; a success yields one triple per
result entry; a leaf failure makes the call itself raise (res.error is a
string and has no items method), modelled as none. -/
def keysSubset_call (sk : List String) (traf : Traf) (data : Rec) :
    Option CallOut :=
  match traf.check (mkSubdict (keysSubsetKeysNames sk traf) data) with
  | .err (.dictE m) =>
    some (m.map (fun p => (p.1, Sum.inl (normErr p.2), keysSubsetKeysNames sk traf)))
  | .err (.strE _) => none
  | .ok r =>
    some (r.map (fun p => (p.1, Sum.inr p.2, keysSubsetKeysNames sk traf)))

/-- Spec wording for the sub-record of a Field-Group Rule, used to compare
the code against claim C3: a record containing, for every declared source
field present in the input, that field value and nothing else. -/
def declaredSubdict (sk : List String) (data : Rec) : Rec :=
  mkSubdict sk data

/-- get_default_value (extras.py lines 52 to 58): the unset sentinel
renders as N/A, an explicit empty string as a quoted empty string, any
other explicit default as its own literal text. -/
def get_default_value : PyDefault → String
  | .empty => "N/A"
  | .strD s => if s = "" then "\"\"" else s

/-- Rendering of key_map for the optional flag: str(True if k.optional
else False). -/
def pyBoolStr (b : Bool) : String := if b then "True" else "False"

/-- join (extras.py lines 72 to 81) over pre-read attribute values: emit
name: value for every attribute that is not None, the regex attribute with
its pattern in double quotes, joined with comma and space. -/
def joinAttrs (attrs : List (String × Option String)) : String :=
  String.intercalate (", ")
    (attrs.filterMap (fun p =>
      p.2.map (fun v =>
        if p.1 = "regex" then p.1 ++ (": \"") ++ v ++ ("\"")
        else p.1 ++ (": ") ++ v)))

/-- Canonical requirement schema value returned by trafaret_parse: a
string, a Python list, or a Python dict. -/
inductive Req where
  | rstr (s : String)
  | rlist (items : List Req)
  | rdict (entries : List (String × Req))

mutual
/-- Python repr of a canonical schema value: strings in single quotes,
lists in brackets, dicts in braces with quoted keys. -/
def pyRepr : Req → String
  | .rstr s => "\x27" ++ s ++ "\x27"
  | .rlist items => "[" ++ String.intercalate (", ") (pyReprList items) ++ "]"
  | .rdict es => "\x7b" ++ String.intercalate (", ") (pyReprEntries es) ++ "\x7d"

/-- Reprs of the elements of a list value. -/
def pyReprList : List Req → List String
  | [] => []
  | r :: rs => pyRepr r :: pyReprList rs

/-- Reprs of the entries of a dict value. -/
def pyReprEntries : List (String × Req) → List String
  | [] => []
  | (k, v) :: es => ("\x27" ++ k ++ "\x27: " ++ pyRepr v) :: pyReprEntries es
end

/-- Python str of a canonical schema value: a string is returned as is, a
list or dict renders as its repr. -/
def pyStr : Req → String
  | .rstr s => s
  | .rlist items => pyRepr (.rlist items)
  | .rdict es => pyRepr (.rdict es)

/-- The brief signature returned by trafaret_parse: a string for every
branch except an unregistered Dict, which returns its requirement mapping
itself as the brief. -/
abbrev Brief := Sum String Req

/-- Python str of a brief, as applied by string format: a string is
unchanged, a dict renders as its repr. -/
def briefStr : Brief → String
  | .inl s => s
  | .inr r => pyRepr r

/-- The elements of a brief list when all of them are strings; none when
some element is a dict, in which case the join call of the Tuple and Or
branches raises TypeError. -/
def briefsAsStrings : List Brief → Option (List String)
  | [] => some []
  | .inl s :: bs => (briefsAsStrings bs).map (fun l => s :: l)
  | .inr _ :: _ => none

/-- The join call of the Tuple and Or branches over collected briefs. -/
def joinBriefs (bs : List Brief) : Option String :=
  (briefsAsStrings bs).map (String.intercalate (", "))

/-- One documentation row: the str of each of key_fields in order (name,
default, optional, value, description). -/
abbrev Row := List String

/-- The validation_tables dict: reusable sub-schema path to its rendered
rows, insertion ordered. -/
abbrev Tables := List (String × List Row)

/-- Python dict assignment on a table map. -/
def insT : Tables → String → List Row → Tables
  | [], k, v => [(k, v)]
  | (k', v') :: rest, k, v =>
    if k' = k then (k, v) :: rest else (k', v') :: insT rest k v

/-- Python dict.update of a table map with another: each entry of the
second is assigned into the first in order. -/
def updT (t : Tables) (t' : Tables) : Tables :=
  t'.foldl (fun acc p => insT acc p.1 p.2) t

/-- Python dict lookup on a table map. -/
def lookupT : Tables → String → Option (List Row)
  | [], _ => none
  | (k', v) :: rest, k => if k' = k then some v else lookupT rest k

/-- Python dict assignment on the requirement schema being assembled by
the Dict branch: req_schema[key.name] = req_value. -/
def insE : List (String × Req) → String → Req → List (String × Req)
  | [], k, v => [(k, v)]
  | (k', v') :: rest, k, v =>
    if k' = k then (k, v) :: rest else (k', v') :: insE rest k v

/-- Python str.split on a dot: cut the character list at every dot,
keeping empty pieces, so the empty string splits into one empty piece. -/
def splitDotAux : List Char → List Char → List String
  | [], cur => [String.mk cur.reverse]
  | c :: cs, cur =>
    if c = ('.') then String.mk cur.reverse :: splitDotAux cs []
    else splitDotAux cs (c :: cur)

/-- parent.split on dot, last element: the final path segment consulted
against the reusable sub-schema registry. -/
def lastSeg (p : String) : String := (splitDotAux p.data []).getLastD ("")

/-- Python str of a tuple of strings, used by the Enum branch for
tr.variants. -/
def pyTupleRepr : List String → String
  | [] => "()"
  | [s] => "(\x27" ++ s ++ "\x27,)"
  | l =>
    "(" ++ String.intercalate (", ") (l.map (fun s => "\x27" ++ s ++ "\x27")) ++ ")"

mutual
/-- trafaret_parse (extras.py lines 84 to 169) over a registry standing
for the module-level subtraf_names list (shipped empty, mutable by
external code).  Returns the brief signature, the canonical requirement
schema and the table map, or none when the Python code raises.  The
is_subtraf test of the Dict branch is inlined at both of its uses. -/
def trafaret_parse (registry : List String) : Traf → String → Option (Brief × Req × Tables)
  | .dictT keys _, parent =>
    match parseKeys registry parent keys ([], [], []) with
    | none => none
    | some (trafarets, req_schema, vt) =>
      if registry.contains (lastSeg parent) then
        some (.inl parent, .rdict req_schema, insT vt parent trafarets)
      else
        some (.inr (.rdict req_schema), .rdict req_schema, vt)
  | .stringT ab rgx mn mx, _ =>
    some (.inl ("String(" ++ joinAttrs [(("allow_blank"), ab), (("regex"), rgx),
      (("min_length"), mn), (("max_length"), mx)] ++ ")"), .rstr ("String"), [])
  | .intT a b c d, _ =>
    some (.inl ("Integer(" ++ joinAttrs [(("gt"), a), (("gte"), b), (("lt"), c),
      (("lte"), d)] ++ ")"), .rstr ("Integer"), [])
  | .floatT a b c d, _ =>
    some (.inl ("Float(" ++ joinAttrs [(("gt"), a), (("gte"), b), (("lt"), c),
      (("lte"), d)] ++ ")"), .rstr ("Float"), [])
  | .boolT, _ => some (.inl ("Bool"), .rstr ("Bool"), [])
  | .tupleT ts len, parent =>
    match parseSeq registry parent ts ([], [], []) with
    | none => none
    | some (values, req_data, vts) =>
      match joinBriefs values with
      | none => none
      | some joined =>
        some (.inl ("List([" ++ joined ++ "], " ++ toString len ++ ")"),
          .rlist req_data, vts)
  | .listT t mn mx, parent =>
    match trafaret_parse registry t parent with
    | none => none
    | some (v, r, vt) =>
      some (.inl ("List([" ++ briefStr v ++ "], " ++
        joinAttrs [(("min_length"), mn), (("max_length"), mx)] ++ ")"),
        .rlist [r], vt)
  | .anyT, _ => some (.inl ("Any"), .rstr ("Any"), [])
  | .orT ts, parent =>
    match parseSeq registry parent ts ([], [], []) with
    | none => none
    | some (values, req_data, vts) =>
      match joinBriefs values with
      | none => none
      | some joined =>
        some (.inl ("Or(" ++ joined ++ ")"),
          .rstr (String.intercalate (" or ") (req_data.map pyStr)), vts)
  | .enumT vs, _ =>
    some (.inl ("Enum" ++ pyTupleRepr vs), .rstr ("Enum" ++ pyTupleRepr vs), [])
  | .nullT, _ => some (.inl ("Null"), .rstr ("Null"), [])
  | .mappingT kt vt, parent =>
    match trafaret_parse registry kt parent with
    | none => none
    | some (key_value, key_req, _key_tables) =>
      match trafaret_parse registry vt parent with
      | none => none
      | some (val_value, val_req, _val_tables) =>
        some (.inl ("\x7b" ++ briefStr key_value ++ ": " ++ briefStr val_value ++ "\x7d"),
          .rdict [(pyStr key_req, .rstr (pyStr val_req))], [])
  | .otherT txt _, _ => some (.inl txt, .rstr txt, [])

/-- The shared loop of the Tuple and Or branches, as an accumulating pass:
collect each brief and each canonical in order and merge non-empty child
tables into the accumulated table map.  The Or branch applies str to each
collected canonical afterwards, with the same result as applying it inside
the loop. -/
def parseSeq (registry : List String) (parent : String) :
    List Traf → (List Brief × List Req × Tables) →
    Option (List Brief × List Req × Tables)
  | [], acc => some acc
  | t :: ts, (values, req_data, vts) =>
    match trafaret_parse registry t parent with
    | none => none
    | some (v, r, vt) =>
      parseSeq registry parent ts
        (values ++ [v], req_data ++ [r], if vt.isEmpty then vts else updT vts vt)

/-- The key loop of the Dict branch (extras.py lines 102 to 108): for each
field descriptor in declaration order, walk the child at the extended
path, merge a non-empty child table map, append the documentation row
(name, rendered default, optionality, child brief, description) and assign
the child canonical under the field name.  A KeysSubset entry walks like
any key until the row is built from key_fields, where reading its default
attribute raises AttributeError; the whole walk therefore raises, modelled
as none. -/
def parseKeys (registry : List String) (parent : String) :
    List TKey → (List Row × List (String × Req) × Tables) →
    Option (List Row × List (String × Req) × Tables)
  | [], acc => some acc
  | .field n d o desc ctraf :: ks, (trafarets, req_schema, vts) =>
    match trafaret_parse registry ctraf (parent ++ "." ++ n) with
    | none => none
    | some (v, r, vt) =>
      parseKeys registry parent ks
        (trafarets ++ [[n, get_default_value d, pyBoolStr o, briefStr v, desc]],
         insE req_schema n r,
         if vt.isEmpty then vts else updT vts vt)
  | .subset _ _ :: _, _ => none
end

/-- Invariant of a table map built by the walker for a given registry:
every key is a path whose final segment is a registered name, and the keys
are pairwise distinct (the map is a dict keyed by path). -/
def KeysOK (registry : List String) (t : Tables) : Prop :=
  (∀ p ∈ t.map Prod.fst, registry.contains (lastSeg p) = true)
  ∧ (t.map Prod.fst).Nodup

/-- Concrete reusable sub-schema used in the concrete analyses below: a
Record with one field n whose validator is Any. -/
def userSub : Traf := .dictT [.field ("n") .empty false ("") .anyT] (fun r => .ok r)

/-- The rendered documentation row table of userSub. -/
def userRows : List Row := [[("n"), ("N/A"), ("False"), ("Any"), ("")]]

/-- Concrete top-level tree in which userSub is reachable from two
different positions: once under a key named user, and once under a key
named user inside a key named other. -/
def twoPathsTree : Traf :=
  .dictT [.field ("user") .empty false ("") userSub,
          .field ("other") .empty false ("")
            (.dictT [.field ("user") .empty false ("") userSub] (fun r => .ok r))]
    (fun r => .ok r)

/-- Lookup after a Python dict assignment: the assigned key reads back the
assigned value, every other key is unchanged. -/
theorem rget_pyInsert (k : String) (v : Val) :
    ∀ (r : Rec) (k' : String),
      rget (pyInsert r k v) k' = if k = k' then some v else rget r k'
  | [], k' => by simp [pyInsert, rget]
  | (k0, v0) :: tl, k' => by
    by_cases h0 : k0 = k
    · subst h0
      by_cases h1 : k0 = k'
      · subst h1; simp [pyInsert, rget]
      · simp [pyInsert, rget, h1]
    · by_cases h1 : k0 = k'
      · subst h1
        have : ¬ k = k0 := fun hc => h0 hc.symm
        simp [pyInsert, rget, h0, this]
      · simp [pyInsert, rget, h0, h1, rget_pyInsert k v tl k']

/-- Lookup across the subdict fold of line 34: a key found in the scanned
names with a present value reads from data, anything else reads from the
accumulator. -/
theorem rget_foldl_subStep (data : Rec) :
    ∀ (kn : List String) (acc : Rec) (k : String),
      rget (kn.foldl (subStep data) acc) k
        = if k ∈ kn ∧ (rget data k).isSome then rget data k else rget acc k
  | [], acc, k => by simp
  | k0 :: kn, acc, k => by
    rw [List.foldl_cons, rget_foldl_subStep data kn (subStep data acc k0) k]
    by_cases hmem : k ∈ kn ∧ (rget data k).isSome
    · simp [hmem, hmem.1, hmem.2]
    · rw [if_neg hmem]
      by_cases hk : k0 = k
      · subst hk
        cases hdk : rget data k0 with
        | some v => simp [subStep, hdk, rget_pyInsert]
        | none => simp [subStep, hdk]
      · have hne : k ≠ k0 := fun hc => hk hc.symm
        have hcond : ¬ (k ∈ k0 :: kn ∧ (rget data k).isSome) := by
          intro hc
          rcases List.mem_cons.mp hc.1 with h | h
          · exact hne h
          · exact hmem ⟨h, hc.2⟩
        rw [if_neg hcond]
        cases hdk : rget data k0 with
        | some v => simp [subStep, hdk, rget_pyInsert, hk]
        | none => simp [subStep, hdk]

/-- Lookup in the sub-record of line 34: exactly the scanned names present
in data are mapped, each to its input value. -/
theorem rget_mkSubdict (kn : List String) (data : Rec) (k : String) :
    rget (mkSubdict kn data) k = if k ∈ kn then rget data k else none := by
  unfold mkSubdict
  rw [rget_foldl_subStep]
  by_cases hm : k ∈ kn
  · cases hdk : rget data k <;> simp [hm, hdk, rget]
  · simp [hm, rget]

/-- Claim C1: when the inner validator fails with a structured failure,
KeysSubset yields, for every pair of the failure mapping in order, the
triple of the field, the normalized error and the consumed field names,
where a plain message is wrapped into DataError and a value that is
already a DataError passes through unchanged. -/
theorem c1_structured_failure_normalized
    (sk : List String) (traf : Traf) (data : Rec) (m : List (String × EItem))
    (h : traf.check (mkSubdict (keysSubsetKeysNames sk traf) data)
           = .err (.dictE m)) :
    keysSubset_call sk traf data
      = some (m.map (fun p => (p.1, Sum.inl (normErr p.2), keysSubsetKeysNames sk traf)))
    ∧ (∀ s, normErr (.plainE s) = DataError.strE s)
    ∧ (∀ e, normErr (.derrE e) = e) := by
  refine ⟨?_, fun s => rfl, fun e => rfl⟩
  unfold keysSubset_call
  rw [h]

/-- Witness for C1 at a concrete rule and input: one plain message gets
wrapped, one DataError passes through, and the declared name list is the
third component of each triple. -/
theorem c1_witness :
    keysSubset_call [("a")]
      (.otherT ("t") (fun _ => .err (.dictE
        [(("a"), .plainE ("bad")), (("b"), .derrE (.strE ("x")))])))
      [(("a"), Val.vstr ("v"))]
      = some [(("a"), Sum.inl (DataError.strE ("bad")), [("a")]),
              (("b"), Sum.inl (DataError.strE ("x")), [("a")])] := by
  have h := c1_structured_failure_normalized [("a")]
    (.otherT ("t") (fun _ => .err (.dictE
      [(("a"), .plainE ("bad")), (("b"), .derrE (.strE ("x")))])))
    [(("a"), Val.vstr ("v"))]
    [(("a"), .plainE ("bad")), (("b"), .derrE (.strE ("x")))] rfl
  exact h.1

/-- Claim C2: keys_names of a KeysSubset whose inner validator is a Record
yields the names of the inner Record first and the declared source names
after them, and the inner Record consults the keys_names of each of its
entries recursively, so the ordering holds transitively under nesting. -/
theorem c2_keys_names_order :
    (∀ (sk : List String) (ikeys : List TKey) (chk : Rec → Res),
       keysSubsetKeysNames sk (.dictT ikeys chk) = dictKeysNames ikeys ++ sk)
    ∧ (∀ (k : TKey) (ks : List TKey),
         dictKeysNames (k :: ks) = tkeyKeysNames k ++ dictKeysNames ks)
    ∧ (∀ (sk : List String) (t : Traf),
         tkeyKeysNames (.subset sk t) = keysSubsetKeysNames sk t)
    ∧ (∀ (sk sk' : List String) (t : Traf) (chk : Rec → Res),
         keysSubsetKeysNames sk (.dictT [.subset sk' t] chk)
           = keysSubsetKeysNames sk' t ++ sk) := by
  refine ⟨fun _ _ _ => rfl, fun _ _ => rfl, fun _ _ => rfl, fun sk sk' t chk => ?_⟩
  simp [keysSubsetKeysNames, dictKeysNames, tkeyKeysNames]

/-- Counterexample to claim C3 as stated: with no declared source fields
and an inner Record declaring a field b, the built sub-record contains the
input key b, which is not a declared source field, and the inner validator
receives and returns it; the spec-worded sub-record over the declared
source fields only would be empty. -/
theorem c3_counterexample :
    keysSubset_call []
      (.dictT [.field ("b") .empty false ("") .anyT] (fun r => .ok r))
      [(("b"), Val.vint 1)]
      = some [(("b"), Sum.inr (Val.vint 1), [("b")])]
    ∧ mkSubdict
        (keysSubsetKeysNames []
          (.dictT [.field ("b") .empty false ("") .anyT] (fun r => .ok r)))
        [(("b"), Val.vint 1)]
      ≠ declaredSubdict [] [(("b"), Val.vint 1)] := by
  constructor
  · rfl
  · intro hc
    have : ([(("b"), Val.vint 1)] : Rec) = [] := hc
    simp at this

/-- Claim C3 as amended: the sub-record passed to the inner validator is
built from exactly the names yielded by keys_names (the inner Record
names, when the inner validator is a Record, followed by the declared
source names) that are present in the input, each mapped to its input
value; names absent from the input are omitted and no other input key is
included.  When the inner validator is not a Record, keys_names is exactly
the declared source names, so the original claim holds in that case. -/
theorem c3_amended_subdict_from_keys_names
    (sk : List String) (traf : Traf) (data : Rec) (k : String)
    (s : String) (chk : Rec → Res) :
    rget (mkSubdict (keysSubsetKeysNames sk traf) data) k
      = (if k ∈ keysSubsetKeysNames sk traf then rget data k else none)
    ∧ mkSubdict (keysSubsetKeysNames sk (.otherT s chk)) data
      = declaredSubdict sk data := by
  exact ⟨rget_mkSubdict (keysSubsetKeysNames sk traf) data k, rfl⟩

/-- Counterexample to claim C4 as stated: a rule with zero declared source
fields and the default accept-anything inner validator passes the empty
sub-record, not the entire input record, so the call yields no triples at
all where the claim predicts the whole record flowing through. -/
theorem c4_counterexample :
    keysSubset_call [] Traf.anyT [(("z"), Val.vint 1)] = some []
    ∧ some ([] : CallOut)
      ≠ some [(("z"), Sum.inr (Val.vint 1), ([] : List String))] := by
  refine ⟨rfl, ?_⟩
  intro hc
  have : ([] : CallOut) = [(("z"), Sum.inr (Val.vint 1), ([] : List String))] :=
    Option.some.inj hc
  simp at this

/-- Claim C4 as amended: a rule constructed with zero source field names
passes to the inner validator the input restricted to the keys_names of
the inner validator: the empty record for a non-Record inner validator
(making the call result independent of the input), and the restriction to
the inner Record names for a Record inner validator. -/
theorem c4_amended_empty_keys
    (s : String) (chk : Rec → Res) (ikeys : List TKey)
    (data data' : Rec) (k : String) :
    keysSubset_call [] (.otherT s chk) data
      = keysSubset_call [] (.otherT s chk) data'
    ∧ keysSubset_call [] Traf.anyT data = some []
    ∧ rget (mkSubdict (keysSubsetKeysNames [] (.dictT ikeys chk)) data) k
      = (if k ∈ dictKeysNames ikeys then rget data k else none) := by
  refine ⟨rfl, rfl, ?_⟩
  have h := rget_mkSubdict (keysSubsetKeysNames [] (.dictT ikeys chk)) data k
  simpa [keysSubsetKeysNames] using h

/-- Claim C10: when the inner validator fails with a leaf failure, whose
error payload is a plain message and not a mapping, the invocation of the
rule raises instead of yielding triples, modelled as the call returning
none. -/
theorem c10_leaf_failure_raises
    (sk : List String) (traf : Traf) (data : Rec) (msg : String)
    (h : traf.check (mkSubdict (keysSubsetKeysNames sk traf) data)
           = .err (.strE msg)) :
    keysSubset_call sk traf data = none := by
  unfold keysSubset_call
  rw [h]

/-- Witness for C10 at a concrete rule whose inner validator fails with a
leaf failure: the hypothesis holds by evaluation and the call raises. -/
theorem c10_witness :
    Traf.check (.otherT ("t") (fun _ => .err (.strE ("boom"))))
      (mkSubdict
        (keysSubsetKeysNames [("a")] (.otherT ("t") (fun _ => .err (.strE ("boom")))))
        [])
      = .err (.strE ("boom"))
    ∧ keysSubset_call [("a")] (.otherT ("t") (fun _ => .err (.strE ("boom")))) []
      = none :=
  ⟨rfl, c10_leaf_failure_raises [("a")]
    (.otherT ("t") (fun _ => .err (.strE ("boom")))) [] ("boom") rfl⟩

/-- Keys of a table map after a Python dict assignment: unchanged when the
key is already present, else the key is appended. -/
theorem keys_insT (k : String) (v : List Row) :
    ∀ (t : Tables),
      (insT t k v).map Prod.fst
        = if k ∈ t.map Prod.fst then t.map Prod.fst else t.map Prod.fst ++ [k]
  | [] => by simp [insT]
  | (k0, v0) :: tl => by
    by_cases h : k0 = k
    · subst h; simp [insT]
    · have hne : ¬ k = k0 := fun hc => h hc.symm
      by_cases h2 : k ∈ tl.map Prod.fst <;>
        simp [insT, h, hne, h2, keys_insT k v tl]

/-- Looking up the just assigned key of a table map reads back the
assigned value. -/
theorem lookupT_insT_self (k : String) (v : List Row) :
    ∀ (t : Tables), lookupT (insT t k v) k = some v
  | [] => by simp [insT, lookupT]
  | (k0, v0) :: tl => by
    by_cases h : k0 = k <;> simp [insT, lookupT, h, lookupT_insT_self k v tl]

/-- The empty table map satisfies the key invariant. -/
theorem keysOK_nil (registry : List String) : KeysOK registry [] := by
  constructor <;> simp

/-- A Python dict assignment with a registered path preserves the key
invariant. -/
theorem keysOK_insT (registry : List String) (t : Tables) (k : String)
    (v : List Row) (ht : KeysOK registry t)
    (hk : registry.contains (lastSeg k) = true) :
    KeysOK registry (insT t k v) := by
  obtain ⟨hreg, hnd⟩ := ht
  rw [KeysOK, keys_insT]
  by_cases hm : k ∈ t.map Prod.fst
  · simp only [hm, if_pos]
    exact ⟨hreg, hnd⟩
  · simp only [hm, if_neg, if_false]
    constructor
    · intro p hp
      rcases List.mem_append.mp hp with h | h
      · exact hreg p h
      · rw [List.mem_singleton.mp h]; exact hk
    · rw [List.nodup_append]
      exact ⟨hnd, List.nodup_singleton k, by simpa using hm⟩

/-- A Python dict.update with a table map whose keys all have registered
final segments preserves the key invariant. -/
theorem keysOK_updT (registry : List String) :
    ∀ (b a : Tables), KeysOK registry a →
      (∀ p ∈ b.map Prod.fst, registry.contains (lastSeg p) = true) →
      KeysOK registry (updT a b)
  | [], a, ha, _ => ha
  | (k, v) :: b, a, ha, hb => by
    have hk : registry.contains (lastSeg k) = true := hb k (by simp)
    have ha' : KeysOK registry (insT a k v) := keysOK_insT registry a k v ha hk
    have hb' : ∀ p ∈ b.map Prod.fst, registry.contains (lastSeg p) = true :=
      fun p hp => hb p (by simp [hp])
    exact keysOK_updT registry b (insT a k v) ha' hb'

mutual
/-- Every table map returned by the walker satisfies the key invariant:
its keys are pairwise distinct paths whose final segment is a registered
name; the only place an entry is created is the Dict branch, which keys it
by its own full path after a positive registry test. -/
theorem parse_keysOK (registry : List String) :
    ∀ (tr : Traf) (parent : String) (b : Brief) (r : Req) (t : Tables),
      trafaret_parse registry tr parent = some (b, r, t) → KeysOK registry t
  | .anyT => by
    intro parent b r t h
    simp only [trafaret_parse] at h
    cases h
    exact keysOK_nil registry
  | .stringT ab rgx mn mx => by
    intro parent b r t h
    simp only [trafaret_parse] at h
    cases h
    exact keysOK_nil registry
  | .intT a bb c d => by
    intro parent b r t h
    simp only [trafaret_parse] at h
    cases h
    exact keysOK_nil registry
  | .floatT a bb c d => by
    intro parent b r t h
    simp only [trafaret_parse] at h
    cases h
    exact keysOK_nil registry
  | .boolT => by
    intro parent b r t h
    simp only [trafaret_parse] at h
    cases h
    exact keysOK_nil registry
  | .tupleT ts len => by
    intro parent b r t h
    simp only [trafaret_parse] at h
    cases hseq : parseSeq registry parent ts ([], [], []) with
    | none => simp only [hseq] at h; exact Option.noConfusion h
    | some acc =>
      obtain ⟨values, req_data, vts⟩ := acc
      simp only [hseq] at h
      cases hj : joinBriefs values with
      | none => simp only [hj] at h; exact Option.noConfusion h
      | some joined =>
        simp only [hj] at h
        injection h with h1
        injection h1 with hb h2
        injection h2 with hr ht
        rw [← ht]
        exact parseSeq_keysOK registry parent ts ([], [], [])
          (values, req_data, vts) hseq (keysOK_nil registry)
  | .listT t0 mn mx => by
    intro parent b r t h
    simp only [trafaret_parse] at h
    cases hp : trafaret_parse registry t0 parent with
    | none => simp only [hp] at h; exact Option.noConfusion h
    | some res =>
      obtain ⟨v, r0, vt⟩ := res
      simp only [hp] at h
      injection h with h1
      injection h1 with hb h2
      injection h2 with hr ht
      rw [← ht]
      exact parse_keysOK registry t0 parent v r0 vt hp
  | .orT ts => by
    intro parent b r t h
    simp only [trafaret_parse] at h
    cases hseq : parseSeq registry parent ts ([], [], []) with
    | none => simp only [hseq] at h; exact Option.noConfusion h
    | some acc =>
      obtain ⟨values, req_data, vts⟩ := acc
      simp only [hseq] at h
      cases hj : joinBriefs values with
      | none => simp only [hj] at h; exact Option.noConfusion h
      | some joined =>
        simp only [hj] at h
        injection h with h1
        injection h1 with hb h2
        injection h2 with hr ht
        rw [← ht]
        exact parseSeq_keysOK registry parent ts ([], [], [])
          (values, req_data, vts) hseq (keysOK_nil registry)
  | .enumT vs => by
    intro parent b r t h
    simp only [trafaret_parse] at h
    cases h
    exact keysOK_nil registry
  | .nullT => by
    intro parent b r t h
    simp only [trafaret_parse] at h
    cases h
    exact keysOK_nil registry
  | .mappingT kt vt => by
    intro parent b r t h
    simp only [trafaret_parse] at h
    split at h
    · exact absurd h (by simp)
    · rename_i kv kr ktab hk
      split at h
      · exact absurd h (by simp)
      · rename_i vv vr vtab hv
        cases h
        exact keysOK_nil registry
  | .dictT keys chk => by
    intro parent b r t h
    simp only [trafaret_parse] at h
    split at h
    · exact absurd h (by simp)
    · rename_i rows es vt hpk
      have hvt : KeysOK registry vt :=
        parseKeys_keysOK registry parent keys ([], [], []) (rows, es, vt) hpk
          (keysOK_nil registry)
      by_cases hreg : registry.contains (lastSeg parent) = true
      · rw [if_pos hreg] at h
        cases h
        exact keysOK_insT registry vt parent rows hvt hreg
      · rw [if_neg hreg] at h
        cases h
        exact hvt
  | .otherT txt chk => by
    intro parent b r t h
    simp only [trafaret_parse] at h
    cases h
    exact keysOK_nil registry

/-- The Tuple and Or loop preserves the key invariant of the accumulated
table map. -/
theorem parseSeq_keysOK (registry : List String) (parent : String) :
    ∀ (ts : List Traf) (acc out : List Brief × List Req × Tables),
      parseSeq registry parent ts acc = some out →
      KeysOK registry acc.2.2 → KeysOK registry out.2.2
  | [], acc, out => by
    intro h hacc
    simp only [parseSeq] at h
    cases h
    exact hacc
  | t :: ts, acc, out => by
    intro h hacc
    obtain ⟨vs, rs, vt0⟩ := acc
    simp only [parseSeq] at h
    split at h
    · exact absurd h (by simp)
    · rename_i v r vt hp
      refine parseSeq_keysOK registry parent ts _ out h ?_
      show KeysOK registry (if vt.isEmpty then vt0 else updT vt0 vt)
      by_cases he : vt.isEmpty
      · simpa [he] using hacc
      · have hvt := parse_keysOK registry t parent v r vt hp
        simp only [he, if_false, Bool.false_eq_true]
        exact keysOK_updT registry vt vt0 hacc hvt.1

/-- The Dict key loop preserves the key invariant of the accumulated table
map. -/
theorem parseKeys_keysOK (registry : List String) (parent : String) :
    ∀ (ks : List TKey) (acc out : List Row × List (String × Req) × Tables),
      parseKeys registry parent ks acc = some out →
      KeysOK registry acc.2.2 → KeysOK registry out.2.2
  | [], acc, out => by
    intro h hacc
    simp only [parseKeys] at h
    cases h
    exact hacc
  | .field n d o desc ctraf :: ks, acc, out => by
    intro h hacc
    obtain ⟨rows, es, vt0⟩ := acc
    simp only [parseKeys] at h
    split at h
    · exact absurd h (by simp)
    · rename_i v r vt hp
      refine parseKeys_keysOK registry parent ks _ out h ?_
      show KeysOK registry (if vt.isEmpty then vt0 else updT vt0 vt)
      by_cases he : vt.isEmpty
      · simpa [he] using hacc
      · have hvt := parse_keysOK registry ctraf (parent ++ "." ++ n) v r vt hp
        simp only [he, if_false, Bool.false_eq_true]
        exact keysOK_updT registry vt vt0 hacc hvt.1
  | .subset sk t0 :: ks, acc, out => by
    intro h hacc
    simp only [parseKeys] at h
    exact absurd h (by simp)
end

/-- Claim C9: while the reusable sub-schema registry is in its shipped
empty state, every successful walk returns an empty table map, and every
Record node returns its inlined requirement mapping as its brief rather
than a path cross-reference, so sub-schema extraction is inert until
external code mutates the registry. -/
theorem c9_empty_registry_inert
    (tr : Traf) (parent : String) (b : Brief) (r : Req) (t : Tables)
    (h : trafaret_parse [] tr parent = some (b, r, t)) :
    t = [] ∧ (∀ keys chk, tr = Traf.dictT keys chk → b = Sum.inr r) := by
  constructor
  · have hk := (parse_keysOK [] tr parent b r t h).1
    cases t with
    | nil => rfl
    | cons hd tl =>
      have hc := hk hd.1 (by simp)
      exact Bool.noConfusion hc
  · intro keys chk htr
    subst htr
    simp only [trafaret_parse] at h
    cases hpk : parseKeys [] parent keys ([], [], []) with
    | none => simp only [hpk] at h; exact Option.noConfusion h
    | some acc =>
      obtain ⟨rows, es, vt⟩ := acc
      simp only [hpk] at h
      have hnc : ¬ (([] : List String).contains (lastSeg parent) = true) :=
        fun hcc => Bool.noConfusion hcc
      rw [if_neg hnc] at h
      injection h with h1
      injection h1 with hb h2
      injection h2 with hr ht
      rw [← hb, ← hr]

/-- Witness for C9: the conclusion of the empty-registry theorem holds at
a concrete one-field Record walked at the root with the shipped empty
registry, with the walk evaluated definitionally. -/
theorem c9_witness :
    ([] : Tables) = []
    ∧ (Sum.inr (Req.rdict [(("a"), Req.rstr ("Any"))]) : Brief)
        = Sum.inr (Req.rdict [(("a"), Req.rstr ("Any"))]) := by
  have h := c9_empty_registry_inert
    (Traf.dictT [TKey.field ("a") PyDefault.empty false ("") Traf.anyT]
      (fun r => Res.ok r))
    ("") (Sum.inr (Req.rdict [(("a"), Req.rstr ("Any"))]))
    (Req.rdict [(("a"), Req.rstr ("Any"))]) [] rfl
  exact ⟨h.1, h.2 _ _ rfl⟩

/-- Claim C6 as amended: every key of the table map returned by a walk is
the full encounter path of a registered Record node (its final segment is
a registered name), and the keys are pairwise distinct, so a sub-schema
reachable at several distinct registered paths is recorded once per such
path rather than exactly once overall. -/
theorem c6_amended_tables_keyed_by_encounter_path
    (registry : List String) (tr : Traf) (parent : String)
    (b : Brief) (r : Req) (t : Tables)
    (h : trafaret_parse registry tr parent = some (b, r, t)) :
    (∀ p ∈ t.map Prod.fst, registry.contains (lastSeg p) = true)
    ∧ (t.map Prod.fst).Nodup :=
  parse_keysOK registry tr parent b r t h

/-- Witness for the amended C6 at a concrete registered walk. -/
theorem c6_amended_witness :
    (∀ p ∈ ([((".user"), userRows)] : Tables).map Prod.fst,
       ([("user")] : List String).contains (lastSeg p) = true)
    ∧ (([((".user"), userRows)] : Tables).map Prod.fst).Nodup :=
  c6_amended_tables_keyed_by_encounter_path [("user")] userSub (".user")
    (Sum.inl (".user")) (Req.rdict [(("n"), Req.rstr ("Any"))])
    [((".user"), userRows)] rfl

/-- Counterexample to claim C6 as stated: with the name user registered,
the sub-schema userSub is reachable in twoPathsTree at the two paths .user
and .other.user, and its row table appears twice in the returned table
map, once under each encounter path, not exactly once under the
first-encountered path. -/
theorem c6_counterexample :
    (trafaret_parse [("user")] twoPathsTree ("")).map
        (fun x => x.2.2.map Prod.fst)
      = some [(".user"), (".other.user")]
    ∧ (trafaret_parse [("user")] twoPathsTree ("")).map
        (fun x => (x.2.2.filter (fun e => e.2 == userRows)).length)
      ≠ some 1 := by
  refine ⟨rfl, ?_⟩
  intro hc
  have h2 : (some 2 : Option Nat) = some 1 := hc
  have h3 : (2 : Nat) = 1 := Option.some.inj h2
  omega

/-- Claim C7: for a Record node whose final path segment is registered,
the walker records the assembled row table under the full path in the
returned table map and returns the path string itself as the brief; for
any Record node, registered or not, the returned canonical schema is the
assembled mapping from field name to child canonical, so registration
changes only the brief and never the canonical shape. -/
theorem c7_registered_record
    (registry : List String) (keys : List TKey) (chk : Rec → Res)
    (parent : String) (rows : List Row) (es : List (String × Req))
    (vt : Tables) (b : Brief) (r : Req) (t : Tables)
    (hpk : parseKeys registry parent keys ([], [], []) = some (rows, es, vt))
    (h : trafaret_parse registry (.dictT keys chk) parent = some (b, r, t)) :
    r = .rdict es
    ∧ (registry.contains (lastSeg parent) = true →
         b = .inl parent ∧ lookupT t parent = some rows)
    ∧ (registry.contains (lastSeg parent) = false → b = .inr r ∧ t = vt) := by
  simp only [trafaret_parse, hpk] at h
  by_cases hreg : registry.contains (lastSeg parent) = true
  · rw [if_pos hreg] at h
    injection h with h1
    injection h1 with hb h2
    injection h2 with hr ht
    refine ⟨hr.symm, fun _ => ⟨hb.symm, ?_⟩,
      fun hf => Bool.noConfusion (hreg.symm.trans hf)⟩
    rw [← ht]
    exact lookupT_insT_self parent rows vt
  · rw [if_neg hreg] at h
    injection h with h1
    injection h1 with hb h2
    injection h2 with hr ht
    refine ⟨hr.symm, fun htr => absurd htr hreg, fun _ => ⟨?_, ht.symm⟩⟩
    rw [← hb, ← hr]

/-- Witness for C7 at a concrete registered Record: both hypotheses hold
by evaluation; the brief is the path, the table holds the rows under the
path, and the canonical is the field mapping. -/
theorem c7_witness :
    (Req.rdict [(("n"), Req.rstr ("Any"))] : Req)
      = .rdict [(("n"), Req.rstr ("Any"))]
    ∧ (Sum.inl (".user") : Brief) = .inl (".user")
    ∧ lookupT [((".user"), userRows)] (".user") = some userRows := by
  have h := c7_registered_record [("user")]
    [TKey.field ("n") PyDefault.empty false ("") Traf.anyT] (fun r => Res.ok r)
    (".user") userRows [(("n"), Req.rstr ("Any"))] []
    (Sum.inl (".user")) (Req.rdict [(("n"), Req.rstr ("Any"))])
    [((".user"), userRows)] rfl rfl
  exact ⟨h.1, (h.2.1 rfl).1, (h.2.1 rfl).2⟩

/-- Claim C5 (code bug): for a KeyValueMap node the walker returns the
claimed brief and the claimed single-entry canonical mapping, but it
always returns an empty table map: the source binds the table maps of the
key and value walks and then drops them, so the claimed union is lost
whenever the value walk contributes a table, as this registered value
sub-schema shows. -/
theorem c5_mapping_drops_tables :
    (trafaret_parse [("user")] (.mappingT .anyT userSub) ("doc.user")).map
        (fun x => x.1)
      = some (Sum.inl ("\x7bAny: doc.user\x7d"))
    ∧ (trafaret_parse [("user")] (.mappingT .anyT userSub) ("doc.user")).map
        (fun x => x.2.1)
      = some (Req.rdict [(("Any"), Req.rstr ("\x7b\x27n\x27: \x27Any\x27\x7d"))])
    ∧ (trafaret_parse [("user")] (.mappingT .anyT userSub) ("doc.user")).map
        (fun x => x.2.2)
      = some []
    ∧ (trafaret_parse [("user")] userSub ("doc.user")).map (fun x => x.2.2)
      = some [(("doc.user"), userRows)]
    ∧ some ([] : Tables) ≠ some [(("doc.user"), userRows)] := by
  refine ⟨rfl, rfl, rfl, rfl, ?_⟩
  intro hc
  have h2 : ([] : Tables) = [(("doc.user"), userRows)] := Option.some.inj hc
  exact List.noConfusion h2

/-- Claim C8: the rendered default of a documentation row is N/A for the
unset sentinel, a quoted empty string for an explicit empty string, and
the literal text of any other explicit default; rendering reads the
default without modifying it, so rendering a rendered default returns it
unchanged, and the key loop builds the row of a field from these rendered
components deterministically. -/
theorem c8_default_rendering :
    get_default_value PyDefault.empty = ("N/A")
    ∧ get_default_value (PyDefault.strD ("")) = ("\"\"")
    ∧ (∀ s : String, s ≠ ("") → get_default_value (PyDefault.strD s) = s)
    ∧ (∀ d : PyDefault,
         get_default_value (PyDefault.strD (get_default_value d))
           = get_default_value d)
    ∧ (∀ (registry : List String) (parent n desc : String)
         (d : PyDefault) (o : Bool),
         parseKeys registry parent [.field n d o desc .anyT] ([], [], [])
           = some ([[n, get_default_value d, pyBoolStr o, ("Any"), desc]],
               [(n, Req.rstr ("Any"))], [])) := by
  refine ⟨rfl, rfl, fun s hs => ?_, fun d => ?_,
    fun registry parent n desc d o => rfl⟩
  · simp [get_default_value, hs]
  · cases d with
    | empty => rfl
    | strD s =>
      by_cases hs : s = ("")
      · subst hs; rfl
      · simp [get_default_value, hs]

/-- Witness for C8 at a concrete non-empty default: the side condition
holds by evaluation and the default renders as its own literal text. -/
theorem c8_witness :
    (("x") : String) ≠ ("")
    ∧ get_default_value (PyDefault.strD ("x")) = ("x") :=
  ⟨by decide, c8_default_rendering.2.2.1 ("x") (by decide)⟩
